import Mathlib

/-!
Shallow embedding of `src/monitor.py` (AVR Radiologist Alerts monitor).

HTML documents are modelled at the level BeautifulSoup presents them to the
code: a document is a list of tables, a table a list of rows, a row a list of
cells, where a cell carries its tag kind (`<th>` vs `<td>`) and its
`get_text(" ", strip=True)` text.  Python strings are modelled as `String` /
`List Char` (ASCII case mapping, as all markers in the code are ASCII),
machine integers as `Int`/`Nat`, timestamps as epoch seconds (`Int`).
The `datetime.strptime`/`pytz` date parser (`parse_req_dt`) is passed as an
oracle parameter `String → String → Option Int`, since calendar/timezone
arithmetic lives outside the scraping logic the claims are about; every other
piece of the pipeline is translated directly from the source.
-/

namespace Monitor

/-- Python's `needle in hay` (substring containment), on char lists:
true iff `needle` is a prefix of some suffix of `hay`. -/
def containsSubAux (needle : List Char) : List Char → Bool
  | [] => needle.isEmpty
  | c :: rest => needle.isPrefixOf (c :: rest) || containsSubAux needle rest

/-- Python's `needle in hay` for strings. -/
def strContains (hay needle : String) : Bool :=
  containsSubAux needle.toList hay.toList

/-- Python's `u.startswith(pre)`. -/
def strStartsWith (u pre : String) : Bool :=
  pre.toList.isPrefixOf u.toList

/-- Python's `s.upper()` (ASCII). -/
def upperList (s : List Char) : List Char := s.map Char.toUpper

/-- Python's `s.lower()` (ASCII). -/
def lowerList (s : List Char) : List Char := s.map Char.toLower

/-- Case-insensitive containment `n.lower() in h.lower()` used by
`_pick_column_indexes`. -/
def containsCI (hay needle : String) : Bool :=
  containsSubAux (lowerList needle.toList) (lowerList hay.toList)

/-- A regex word character (`\w`, ASCII part): letters, digits, underscore. -/
def isWordChar (c : Char) : Bool := c.isAlphanum || c = '_'

/-- Word boundary on the left of the current position: start of string or a
non-word character before it. -/
def nonWordBefore : Option Char → Bool
  | none => true
  | some c => !isWordChar c

/-- Word boundary on the right: end of string or a non-word next character. -/
def nonWordAfter : List Char → Bool
  | [] => true
  | c :: _ => !isWordChar c

/-- `len(re.findall(r"\bCT\b", p))` (monitor.py line 433): number of
whole-word occurrences of `CT`.  `prev` is the character just before the
current scan position (`none` at the start of the string).  Matches of this
pattern cannot overlap (both ends sit on word boundaries), so counting match
start positions equals the non-overlapping `findall` count. -/
def countCT (prev : Option Char) : List Char → Nat
  | 'C' :: 'T' :: rest =>
      (if nonWordBefore prev && nonWordAfter rest then 1 else 0)
        + countCT (some 'C') ('T' :: rest)
  | c :: rest => countCT (some c) rest
  | [] => 0

/-- The `MRI?\b` tail at a match position: greedy optional `I`, then a word
boundary.  `rest` is what follows the matched `MR`. -/
def mriTail : List Char → Bool
  | 'I' :: rest2 => nonWordAfter rest2
  | rest => nonWordAfter rest

/-- `len(re.findall(r"\bMRI?\b", p))` (monitor.py line 434): whole-word
occurrences of `MR` or `MRI`. -/
def countMRI (prev : Option Char) : List Char → Nat
  | 'M' :: 'R' :: rest =>
      (if nonWordBefore prev && mriTail rest then 1 else 0)
        + countMRI (some 'M') ('R' :: rest)
  | c :: rest => countMRI (some c) rest
  | [] => 0

/-- `re.split(r"[;,/]|(?:\bAND\b)", upper)` (monitor.py line 430): split at
each single separator character or whole-word `AND`, scanning left to right,
single-character alternatives tried first.  `prev` is the character before
the scan position (for the `\b` before `AND`), `cur` the reversed current
segment. -/
def splitSegs (prev : Option Char) (cur : List Char) : List Char → List (List Char)
  | [] => [cur.reverse]
  | 'A' :: 'N' :: 'D' :: rest2 =>
      if nonWordBefore prev && nonWordAfter rest2 then
        cur.reverse :: splitSegs (some 'D') [] rest2
      else
        splitSegs (some 'A') ('A' :: cur) ('N' :: 'D' :: rest2)
  | c :: rest =>
      if c = ';' || c = ',' || c = '/' then
        cur.reverse :: splitSegs (some c) [] rest
      else
        splitSegs (some c) (c :: cur) rest

/-- Python's `s.strip()` on a char list. -/
def stripChars (s : List Char) : List Char :=
  ((s.dropWhile Char.isWhitespace).reverse.dropWhile Char.isWhitespace).reverse

/-- Mention counting for one study cell (monitor.py lines 429-434): uppercase
the cell text, split it on `;`/`,`/`/`/whole-word `AND`, strip the segments,
drop empty ones, and sum the whole-word `CT` and `MR`/`MRI` counts over the
segments. -/
def mentionCount (cell : String) : Nat :=
  let upper := upperList cell.toList
  let parts := ((splitSegs none [] upper).map stripChars).filter (fun p => !p.isEmpty)
  parts.foldl (fun acc p => acc + (countCT none p + countMRI none p)) 0

/-- The month alternatives of the date-search pattern (monitor.py line 423). -/
def monthNames : List String :=
  ["Jan","Feb","Mar","Apr","May","Jun","Jul","Aug","Sep","Oct","Nov","Dec"]

/-- Tail of the date pattern after a month name:
`\s+\d{1,2},\s+\d{4}` with the regex backtracking of `\d{1,2}` before the
comma made explicit: a run of 3 or more digits can never be followed by the
required comma. -/
def monthRest (s : List Char) : Bool :=
  let sp := s.takeWhile Char.isWhitespace
  let s1 := s.drop sp.length
  let ds := s1.takeWhile Char.isDigit
  let afterComma : List Char → Bool := fun r =>
    let sp2 := r.takeWhile Char.isWhitespace
    let r2 := r.drop sp2.length
    !sp2.isEmpty && 4 ≤ (r2.takeWhile Char.isDigit).length
  !sp.isEmpty &&
    ((ds.length = 2 && (match s1.drop 2 with
        | ',' :: r => afterComma r
        | _ => false)) ||
     (ds.length = 1 && (match s1.drop 1 with
        | ',' :: r => afterComma r
        | _ => false)))

/-- Does the date pattern match starting exactly at the head of `s`? -/
def monthPatAt (s : List Char) : Bool :=
  monthNames.any (fun m => m.toList.isPrefixOf s && monthRest (s.drop m.length))

/-- `re.search(r"(Jan|...|Dec)\s+\d{1,2},\s+\d{4}", s)` (monitor.py line
423): the date pattern matches at some position of `s`. -/
def monthSearch : List Char → Bool
  | [] => false
  | c :: rest => monthPatAt (c :: rest) || monthSearch rest

/-- `\d{2}` then `$`, or `\d{2}` then `:\d{2}$` — the part of the time
pattern after the first colon (monitor.py line 425). -/
def timeTail : List Char → Bool
  | [m1, m2] => m1.isDigit && m2.isDigit
  | [m1, m2, ':', s1, s2] => m1.isDigit && m2.isDigit && s1.isDigit && s2.isDigit
  | _ => false

/-- `re.match(r"\d{1,2}:\d{2}(:\d{2})?$", s)` (monitor.py line 425),
anchored at both ends. -/
def timeMatch : List Char → Bool
  | a :: ':' :: rest => a.isDigit && timeTail rest
  | a :: b :: ':' :: rest => a.isDigit && b.isDigit && timeTail rest
  | _ => false

/-! ### Document model and table location -/

/-- One table cell: its tag kind (`<th>` vs `<td>`) and its
`get_text(" ", strip=True)` text. -/
structure Cell where
  isTh : Bool
  text : String
deriving DecidableEq

/-- One table: its rows (`find_all("tr")`), each a list of cells in document
order. -/
structure HTable where
  rows : List (List Cell)
deriving DecidableEq

/-- A document as the table locator sees it: `soup.find_all("table")`. -/
def Document := List HTable

/-- `t.get_text(" ", strip=True)` for a table in this model: all cell texts
joined with single spaces. -/
def tableText (t : HTable) : String :=
  String.intercalate " " ((t.rows.flatMap fun r => r).map Cell.text)

/-- The hard exclusion of `_find_worklist_table` (monitor.py line 326): the
table's full text contains a "Report Out Time" or "Completed Studies"
marker. -/
def excludedTable (t : HTable) : Bool :=
  strContains (tableText t) "Report Out Time" || strContains (tableText t) "Completed Studies"

/-- `_header_cells` (monitor.py lines 308-309): the texts of all `th`/`td`
cells of a row. -/
def headerCells (row : List Cell) : List String := row.map Cell.text

/-- `_table_header_candidates` (monitor.py lines 311-320): among the first 3
rows, keep the cell-text lists of non-empty rows whose joined text mentions
"Study Requested" or one of "Requested"/"Request"/"Modality"/"Study". -/
def tableHeaderCandidates (t : HTable) : List (List String) :=
  (t.rows.take 3).filterMap fun tr =>
    let cells := headerCells tr
    if cells.isEmpty then none
    else
      let joined := String.intercalate " " cells
      if strContains joined "Study Requested" ||
          ["Requested", "Request", "Modality", "Study"].any (fun h => strContains joined h) then
        some cells
      else none

def DATE_HEADERS : List String :=
  ["Study Requested","Requested Date","Request Date","Date Requested","Scheduled Date","Date"]
def TIME_HEADERS : List String :=
  ["Requested Time","Request Time","Study Requested Time","Time"]
def STUDY_HEADERS : List String :=
  ["Study Requested","Study","Procedure","Exam","Study Name","Study Description","Procedure Requested"]
def MOD_HEADERS : List String := ["Modality","Study Modality","Mod"]

/-- The strong header signal of `_find_worklist_table` (monitor.py line
331). -/
def strongHeader (hdr : List String) : Bool :=
  strContains (String.intercalate " " hdr) "Study Requested"

/-- The weak score of `_find_worklist_table` (monitor.py lines 334-336):
one point for a study keyword, one for a date/time keyword; a candidate
needs both (score >= 2). -/
def weakHeaderOk (hdr : List String) : Bool :=
  let joined := String.intercalate " " hdr
  STUDY_HEADERS.any (fun h => strContains joined h) &&
    (DATE_HEADERS ++ TIME_HEADERS).any (fun h => strContains joined h)

/-- Inner loop of `_find_worklist_table` over one table's header candidates:
`.inl` is the short-circuit return on a strong match; `.inr` carries the
updated fallback-best candidate (set only when empty so far). -/
def scanHeadersets (t : HTable) (best : Option (HTable × List String)) :
    List (List String) → (HTable × List String) ⊕ Option (HTable × List String)
  | [] => Sum.inr best
  | hdr :: rest =>
      if strongHeader hdr then Sum.inl (t, hdr)
      else
        scanHeadersets t
          (if weakHeaderOk hdr && best.isNone then some (t, hdr) else best) rest

/-- Outer loop of `_find_worklist_table` (monitor.py lines 322-339),
carrying the fallback-best candidate; excluded tables are skipped before any
header inspection. -/
def findLoop : Document → Option (HTable × List String) → Option (HTable × List String)
  | [], best => best
  | t :: rest, best =>
      if excludedTable t then findLoop rest best
      else
        match scanHeadersets t best (tableHeaderCandidates t) with
        | Sum.inl r => some r
        | Sum.inr best2 => findLoop rest best2

/-- `_find_worklist_table(soup)`: `none` models the Python `(None, [])`
return. -/
def findWorklistTable (doc : Document) : Option (HTable × List String) :=
  findLoop doc none

/-! ### Column inference -/

/-- `idx_for` inside `_pick_column_indexes` (monitor.py lines 342-345):
index of the first header label containing (case-insensitively) one of the
role's keywords, `-1` if none. -/
def idxForAux (names : List String) (i : Nat) : List String → Int
  | [] => -1
  | h :: rest =>
      if names.any (fun n => containsCI h n) then (i : Int)
      else idxForAux names (i + 1) rest

/-- `_pick_column_indexes(ths)` (monitor.py lines 341-350):
`(date_i, time_i, study_i)`. -/
def pickColumnIndexes (ths : List String) : Int × Int × Int :=
  (idxForAux DATE_HEADERS 0 ths, idxForAux TIME_HEADERS 0 ths, idxForAux STUDY_HEADERS 0 ths)

/-- `td_texts[i] if (0 <= i < len(td_texts)) else ""`. -/
def getAt (texts : List String) (i : Int) : String :=
  if 0 ≤ i && i < (texts.length : Int) then texts.getD i.toNat "" else ""

/-- The key of the study-cell fallback `max` (monitor.py line 415):
`(("CT" in s.upper()) or ("MR" in s.upper()), len(s))`; `studyKeyGt a b`
says the key of `a` is strictly greater than the key of `b`. -/
def studyKeyGt (a b : String) : Bool :=
  let ka := strContains (String.mk (upperList a.toList)) "CT" ||
            strContains (String.mk (upperList a.toList)) "MR"
  let kb := strContains (String.mk (upperList b.toList)) "CT" ||
            strContains (String.mk (upperList b.toList)) "MR"
  (ka && !kb) || ((ka == kb) && b.length < a.length)

/-- `max(td_texts, key=..., default="")` (monitor.py line 415): Python's
`max` keeps the first element whose key is not strictly exceeded later. -/
def maxStudy : List String → String
  | [] => ""
  | x :: rest => rest.foldl (fun cur s => if studyKeyGt s cur then s else cur) x

/-- The date/time fallback scan (monitor.py lines 420-426): walk the cell
texts once, taking the first cell matching the month-date pattern and the
first cell matching the time pattern, keeping already-resolved texts. -/
def fallbackDT (texts : List String) (d t : String) : String × String :=
  texts.foldl
    (fun p s =>
      let d2 := if p.1 = "" && monthSearch s.toList then s else p.1
      let t2 := if p.2 = "" && timeMatch s.toList then s else p.2
      (d2, t2))
    (d, t)

/-! ### Bucketing and extraction -/

/-- The three age buckets; Python uses the dict keys "60", "90", "120". -/
inductive Bucket where
  | b60 | b90 | b120
deriving DecidableEq

/-- The `counts` dict `{"60":0,"90":0,"120":0}`. -/
structure Counts where
  c60 : Nat
  c90 : Nat
  c120 : Nat
deriving DecidableEq

def zeroCounts : Counts := ⟨0, 0, 0⟩

def addBucket (c : Counts) (b : Bucket) (inc : Nat) : Counts :=
  match b with
  | .b60 => { c with c60 := c.c60 + inc }
  | .b90 => { c with c90 := c.c90 + inc }
  | .b120 => { c with c120 := c.c120 + inc }

/-- `minutes = int((now_local - req_dt).total_seconds()//60)` (monitor.py
line 443), with timestamps as epoch seconds: floor division of the elapsed
seconds by 60. -/
def ageMinutes (nowT reqT : Int) : Int := (nowT - reqT).fdiv 60

/-- `bucket = "120" if minutes>=120 else ("90" if minutes>=90 else "60")`
(monitor.py line 447). -/
def bucketFor (minutes : Int) : Bucket :=
  if 120 ≤ minutes then .b120 else if 90 ≤ minutes then .b90 else .b60

/-- Lines 444-447 of monitor.py: rows younger than 60 minutes are skipped
(`none`), otherwise the bucket is chosen by `bucketFor`. -/
def rowBucket (minutes : Int) : Option Bucket :=
  if minutes < 60 then none else some (bucketFor minutes)

/-- One entry of `included_rows` (monitor.py line 450). -/
structure IncludedRow where
  bucket : Bucket
  ageMin : Int
  studyCell : String
  inc : Nat
deriving DecidableEq

/-- The mutable scan state of `parse_worklist_counts`. -/
structure ExtractionState where
  counts : Counts
  rowsSeen : Nat
  considered : Nat
  included : List IncludedRow
deriving DecidableEq

def initState : ExtractionState := ⟨zeroCounts, 0, 0, []⟩

/-- The per-row work after a row has been counted in `rows_seen`
(monitor.py lines 409-450): study-cell selection with fallback, date/time
selection with fallback, mention counting, timestamp parsing via the
`oracle` (modelling `parse_req_dt`), age computation and bucketing.  This
part never touches `rowsSeen`. -/
def stepRowBody (oracle : String → String → Option Int) (nowT : Int)
    (dateI timeI studyI : Int) (tdTexts : List String)
    (st : ExtractionState) : ExtractionState :=
  let studyText0 := getAt tdTexts studyI
  let studyText := if studyText0 = "" then maxStudy tdTexts else studyText0
  let dateText0 := getAt tdTexts dateI
  let timeText0 := getAt tdTexts timeI
  let dtPair :=
    if dateText0 ≠ "" && timeText0 ≠ "" then (dateText0, timeText0)
    else fallbackDT tdTexts dateText0 timeText0
  let inc := mentionCount studyText
  if inc = 0 then st
  else
    let req := if dtPair.1 ≠ "" && dtPair.2 ≠ "" then oracle dtPair.1 dtPair.2 else none
    match req with
    | none => st
    | some ts =>
      match rowBucket (ageMinutes nowT ts) with
      | none => st
      | some b =>
        { st with
            counts := addBucket st.counts b inc,
            considered := st.considered + inc,
            included := st.included ++
              [{ bucket := b, ageMin := ageMinutes nowT ts, studyCell := studyText, inc := inc }] }

/-- One iteration of the row loop (monitor.py lines 395-450): rows with a
`<th>` cell are skipped, then rows with no or fewer than 5 `<td>` cells;
every remaining row is counted in `rows_seen` before any discard logic
runs. -/
def stepRow (oracle : String → String → Option Int) (nowT : Int)
    (dateI timeI studyI : Int) (st : ExtractionState) (tr : List Cell) :
    ExtractionState :=
  if tr.any Cell.isTh then st
  else
    let cells := tr.filter fun c => !c.isTh
    if cells.isEmpty then st
    else if cells.length < 5 then st
    else
      stepRowBody oracle nowT dateI timeI studyI (cells.map Cell.text)
        { st with rowsSeen := st.rowsSeen + 1 }

/-- The debug dictionary returned by `parse_worklist_counts`. -/
structure ParseDebug where
  rowsSeen : Nat
  considered : Nat
  errors : List String
  included : List IncludedRow
deriving DecidableEq

/-- `parse_worklist_counts(html, now_local, tz)` (monitor.py lines 352-453)
over the document model: locate the worklist table, fall back to the first
row for headers when none were captured, infer columns, and fold the row
loop; when no table is found, return all-zero counts with the
"worklist table not found" diagnostic. -/
def parseWorklistCounts (oracle : String → String → Option Int) (nowT : Int)
    (doc : Document) : Counts × ParseDebug :=
  match findWorklistTable doc with
  | none =>
      (zeroCounts,
       { rowsSeen := 0, considered := 0, errors := ["worklist table not found"], included := [] })
  | some (t, hdr) =>
      let headers :=
        if hdr.isEmpty then
          match t.rows.head? with
          | some first => headerCells first
          | none => []
        else hdr
      let idxs := pickColumnIndexes headers
      let st := t.rows.foldl (stepRow oracle nowT idxs.1 idxs.2.1 idxs.2.2) initState
      (st.counts,
       { rowsSeen := st.rowsSeen, considered := st.considered, errors := [],
         included := st.included })

/-! ### Alert decision and allowed window -/

def totalCounts (c : Counts) : Nat := c.c60 + c.c90 + c.c120

/-- The alert decision of `main` (monitor.py lines 509-510):
`alert_ok = (total>=threshold) and allowed; if force_alert: alert_ok=True`. -/
def shouldAlert (c : Counts) (threshold : Int) (allowed force : Bool) : Bool :=
  let alertOk := decide ((totalCounts c : Int) ≥ threshold) && allowed
  if force then true else alertOk

/-- The `alert_triggered` field of a whole run of `main` (monitor.py lines
480-510), as a function of the fetch outcome: on a fetch/authentication
failure no HTML is obtained (`fetched = none`) and the zero counts are used,
otherwise the parsed counts are used. -/
def runAlertTriggered (oracle : String → String → Option Int) (nowT : Int)
    (fetched : Option Document) (threshold : Int) (allowed force : Bool) : Bool :=
  let counts :=
    match fetched with
    | some doc => (parseWorklistCounts oracle nowT doc).1
    | none => zeroCounts
  shouldAlert counts threshold allowed force

/-- `allowed_window(now_local)` (monitor.py lines 71-79).  The weekday is
Python's `weekday()` (0 = Monday .. 6 = Sunday); the time of day is in
microseconds since local midnight, as `datetime.time` comparison includes
microseconds.  The source's local helper `between(a, b) = (a <= t <= b)`
(inclusive at both ends) is inlined at its three call sites. -/
def allowed_window (wd : Nat) (t : Nat) : Bool :=
  if wd ≤ 4 then
    decide (18 * 3600 * 1000000 ≤ t) && decide (t ≤ 86399 * 1000000)
  else if wd = 5 then
    decide (4 * 3600 * 1000000 ≤ t) && decide (t ≤ 86399 * 1000000)
  else
    decide (0 ≤ t) && decide (t ≤ 21 * 3600 * 1000000)

/-! ### Discovery crawl -/

def BASE_URL : String := "https://www.avrteleris.com/AVR"

def DISCOVERY_KEYWORDS : List String :=
  ["worklist", "work list", "results", "report", "prelim", "pending"]

def header_hits : List String :=
  ["Study Requested", "Requested Time", "Request Time", "Modality", "Study"]

/-- `looks_like_worklist(html)` (monitor.py lines 153-162): empty pages and
pages with a completed-studies marker are rejected, the strong signal pair
accepts, otherwise at least 3 backup header keywords are required. -/
def looks_like_worklist (html : String) : Bool :=
  if html = "" then false
  else if strContains html "Completed Studies" || strContains html "Report Out Time" then false
  else if strContains html "Study Requested" && strContains html "Minutes Since Request" then true
  else decide (3 ≤ header_hits.countP fun k => strContains html k)

/-- The keyword score of `prioritize` (monitor.py lines 180-187). -/
def urlScore (u : String) : Nat :=
  DISCOVERY_KEYWORDS.countP fun k =>
    containsSubAux (lowerList k.toList) (lowerList u.toList)

/-- Lexicographic code-point order on char lists (Python string `<=`). -/
def charListLe : List Char → List Char → Bool
  | [], _ => true
  | _ :: _, [] => false
  | a :: xs, b :: ys =>
      if a.toNat < b.toNat then true
      else if b.toNat < a.toNat then false
      else charListLe xs ys

/-- The sort order of `prioritize` as a boolean test: key `(-score, u)`
ascending, i.e. higher score first, ties by URL text. -/
def prLeB (a b : Nat × String) : Bool :=
  b.1 < a.1 || ((a.1 == b.1) && charListLe a.2.toList b.2.toList)

/-- The sort order of `prioritize` as a relation. -/
def prLe (a b : Nat × String) : Prop := prLeB a b = true

instance : DecidableRel prLe := fun a b => instDecidableEqBool (prLeB a b) true

/-- `prioritize(urls)` (monitor.py lines 180-187): sort by descending
keyword score, ties by URL. -/
def prioritize (urls : List String) : List String :=
  (List.insertionSort prLe (urls.map fun u => (urlScore u, u))).map Prod.snd

/-- The enqueue filter of the crawl loop (monitor.py lines 295-297): walk
the prioritized links, appending to the queue at depth `d` those URLs not
already seen that stay under the base URL, and marking them seen. -/
def enqueue (d : Nat) : List String → List String → List (String × Nat) →
    List String × List (String × Nat)
  | [], seen, q => (seen, q)
  | u :: us, seen, q =>
      if !(seen.contains u) && strStartsWith u BASE_URL then
        enqueue d us (u :: seen) (q ++ [(u, d)])
      else enqueue d us seen q

/-- The initial seeding of the crawl queue (monitor.py lines 284-285):
links of the post-login page at depth 1, filtered by the base-URL prefix,
all marked seen. -/
def seedQueue : List String → List String → List (String × Nat) →
    List String × List (String × Nat)
  | [], seen, q => (seen, q)
  | u :: us, seen, q =>
      if strStartsWith u BASE_URL then seedQueue us (u :: seen) (q ++ [(u, 1)])
      else seedQueue us seen q

/-- The crawl loop of `try_login_and_fetch_worklist` (monitor.py lines
286-298).  `web` maps a URL to the HTML its fetch returns; `links` models
`collect_links_and_frames` (the same-origin links and frame sources of the
fetched page).  `fuel` is `max_visits - visit_count`, so the source's
`visit_count < max_visits` guard is `0 < fuel`.  Besides the source's
result (the first worklist-like page, or `none` when the crawl exhausts),
the model returns the trace of fetched `(url, depth)` pairs, in fetch
order, as the observable the bounds are stated over. -/
def crawlLoop (web : String → String) (links : String → String → List String) :
    Nat → List (String × Nat) → List String → Option String × List (String × Nat)
  | 0, _, _ => (none, [])
  | _ + 1, [], _ => (none, [])
  | fuel + 1, (url, depth) :: rest, seen =>
      let html := web url
      if looks_like_worklist html then (some html, [(url, depth)])
      else
        let sq :=
          if depth < 3 then enqueue (depth + 1) (prioritize (links url html)) seen rest
          else (seen, rest)
        let rt := crawlLoop web links fuel sq.2 sq.1
        (rt.1, (url, depth) :: rt.2)

/-- The whole discovery crawl (monitor.py lines 278-298): seed the queue
with the prioritized links of the post-login page, then run the loop with
`max_visits = 60`. -/
def crawl (web : String → String) (links : String → String → List String)
    (startLinks : List String) : Option String × List (String × Nat) :=
  let sq := seedQueue (prioritize startLinks) [] []
  crawlLoop web links 60 sq.2 sq.1

/-! ### Theorems -/

/-- C1: for every worklist row with a parseable timestamp, the age in
minutes is `floor((now - parsed) in seconds / 60)`; ages below 60 minutes
contribute to no bucket, and otherwise the row goes to B120 when the age is
at least 120, to B90 on [90,120), and to B60 on [60,90); in particular 60
and 89 map to B60, 90 and 119 to B90, 120 and 10000 to B120, and 0 and 59
are discarded.  `ageMinutes`/`rowBucket` are exactly the age and bucket
logic the row loop (`stepRowBody`) applies. -/
theorem claim1_age_bucketing :
    (∀ nowT reqT : Int, ageMinutes nowT reqT = (nowT - reqT).fdiv 60) ∧
    (∀ m : Int, m < 60 → rowBucket m = none) ∧
    (∀ m : Int, 120 ≤ m → rowBucket m = some Bucket.b120) ∧
    (∀ m : Int, 90 ≤ m → m < 120 → rowBucket m = some Bucket.b90) ∧
    (∀ m : Int, 60 ≤ m → m < 90 → rowBucket m = some Bucket.b60) ∧
    rowBucket 60 = some Bucket.b60 ∧ rowBucket 89 = some Bucket.b60 ∧
    rowBucket 90 = some Bucket.b90 ∧ rowBucket 119 = some Bucket.b90 ∧
    rowBucket 120 = some Bucket.b120 ∧ rowBucket 10000 = some Bucket.b120 ∧
    rowBucket 0 = none ∧ rowBucket 59 = none := by
  refine ⟨fun _ _ => rfl, ?_, ?_, ?_, ?_, ?_, ?_, ?_, ?_, ?_, ?_, ?_, ?_⟩
  · intro m h
    simp [rowBucket, h]
  · intro m h
    simp [rowBucket, bucketFor, h, show ¬m < 60 by omega]
  · intro m h1 h2
    simp [rowBucket, bucketFor, h1, show ¬m < 60 by omega, show ¬120 ≤ m by omega]
  · intro m h1 h2
    simp [rowBucket, bucketFor, show ¬m < 60 by omega, show ¬120 ≤ m by omega,
      show ¬90 ≤ m by omega]
  all_goals decide

/-- Witness for C1 at a concrete age of 75 minutes. -/
theorem claim1_age_bucketing_witness : rowBucket 75 = some Bucket.b60 :=
  claim1_age_bucketing.2.2.2.2.1 75 (by decide) (by decide)

/-- C2: only whole-word occurrences of CT and MR/MRI count as study
mentions: "CTA chest" yields 0 mentions and "MRN 12345" yields 0 mentions,
while genuine whole-word occurrences next to the false-positive forms are
still counted. -/
theorem claim2_whole_word_matching :
    mentionCount "CTA chest" = 0 ∧ mentionCount "MRN 12345" = 0 ∧
    mentionCount "CTA CT chest" = 1 ∧ mentionCount "MR MRN 12345" = 1 := by
  decide

/-- C3: the mention count of a cell made of the segments "CT" and "MRI" is
the same whichever of the separators `;`, `,`, `/`, or the word "AND" joins
them: each variant yields exactly 2 mentions. -/
theorem claim3_separator_invariance :
    mentionCount "CT, MRI" = 2 ∧ mentionCount "CT; MRI" = 2 ∧
    mentionCount "CT AND MRI" = 2 ∧ mentionCount "CT/MRI" = 2 ∧
    mentionCount "CT / MRI" = 2 ∧ mentionCount "CT;MRI" = 2 := by
  decide

/-- C5: the alert decision equals `force OR (allowed AND total >= threshold)`
for all inputs; with threshold 20, window disallowed, total 25 and no force
flag it is false, and with the force flag set it is true whatever the
counts. -/
theorem claim5_alert_decision :
    (∀ (c : Counts) (th : Int) (allowed force : Bool),
        shouldAlert c th allowed force =
          (force || (allowed && decide ((totalCounts c : Int) ≥ th)))) ∧
    shouldAlert ⟨25, 0, 0⟩ 20 false false = false ∧
    (∀ c : Counts, shouldAlert c 20 false true = true) := by
  refine ⟨?_, by decide, fun c => rfl⟩
  intro c th allowed force
  cases force <;> cases allowed <;> simp [shouldAlert, Bool.and_comm]

/-- C6 counterexample: a run whose fetch fails (no HTML document, so the
zero counts are used) still reports a triggered alert when the FORCE_ALERT
flag is set, so structural failure is not fail-closed for every
threshold/window/force input. -/
theorem claim6_counterexample :
    runAlertTriggered (fun _ _ => none) 0 none 20 false true = true := by
  decide

/-- C6 amended: a run whose fetch fails never reports a triggered alert
provided the force flag is unset and the threshold is positive. -/
theorem claim6_fail_closed :
    ∀ (oracle : String → String → Option Int) (nowT threshold : Int) (allowed : Bool),
      0 < threshold →
      runAlertTriggered oracle nowT none threshold allowed false = false := by
  intro o n th allowed hth
  have h : ¬((totalCounts zeroCounts : Int) ≥ th) := by
    simp only [totalCounts, zeroCounts]
    omega
  simp [runAlertTriggered, shouldAlert, h]

/-- Witness for the amended C6 at threshold 20 with the window allowed. -/
theorem claim6_fail_closed_witness :
    runAlertTriggered (fun _ _ => none) 0 none 20 true false = false :=
  claim6_fail_closed (fun _ _ => none) 0 20 true (by decide)

/-- C7: when no table passes exclusion and scoring, extraction returns a
total function value with all-zero bucket counts, zero rowsSeen and
studiesConsidered, and a non-empty diagnostics list. -/
theorem claim7_no_table_zero_result :
    ∀ (oracle : String → String → Option Int) (nowT : Int) (doc : Document),
      findWorklistTable doc = none →
      (parseWorklistCounts oracle nowT doc).1 = zeroCounts ∧
      (parseWorklistCounts oracle nowT doc).2.rowsSeen = 0 ∧
      (parseWorklistCounts oracle nowT doc).2.considered = 0 ∧
      (parseWorklistCounts oracle nowT doc).2.errors ≠ [] := by
  intro o n doc h
  unfold parseWorklistCounts
  rw [h]
  exact ⟨rfl, rfl, rfl, by simp⟩

/-- Witness for C7 on the empty document. -/
theorem claim7_no_table_zero_result_witness :
    (parseWorklistCounts (fun _ _ => none) 0 []).1 = zeroCounts ∧
    (parseWorklistCounts (fun _ _ => none) 0 []).2.rowsSeen = 0 ∧
    (parseWorklistCounts (fun _ _ => none) 0 []).2.considered = 0 ∧
    (parseWorklistCounts (fun _ _ => none) 0 []).2.errors ≠ [] :=
  claim7_no_table_zero_result (fun _ _ => none) 0 [] rfl

/-- C10: the allowed notification window is a pure function of the local
weekday and time of day (microseconds since midnight): it holds exactly on
Monday-Friday 18:00:00-23:59:59, Saturday 04:00:00-23:59:59 and Sunday
00:00:00-21:00:00, all bounds inclusive; weekday times strictly after
23:59:59 (sub-second instants before midnight) are outside the window. -/
theorem claim10_allowed_window :
    ∀ wd t : Nat, wd < 7 → t < 86400000000 →
      ((allowed_window wd t = true ↔
          ((wd ≤ 4 ∧ 64800000000 ≤ t ∧ t ≤ 86399000000) ∨
           (wd = 5 ∧ 14400000000 ≤ t ∧ t ≤ 86399000000) ∨
           (wd = 6 ∧ t ≤ 75600000000))) ∧
        (wd ≤ 4 → 86399000000 < t → allowed_window wd t = false)) := by
  intro wd t h7 ht
  constructor
  · simp only [allowed_window]
    split_ifs with h1 h2 <;> simp only [Bool.and_eq_true, decide_eq_true_eq]
    · constructor
      · intro h
        refine Or.inl ⟨h1, ?_, ?_⟩ <;> omega
      · rintro (⟨h4, ha, hb⟩ | ⟨h5, ha, hb⟩ | ⟨h6, ha⟩) <;> omega
    · constructor
      · intro h
        refine Or.inr (Or.inl ⟨h2, ?_, ?_⟩) <;> omega
      · rintro (⟨h4, ha, hb⟩ | ⟨h5, ha, hb⟩ | ⟨h6, ha⟩) <;> omega
    · constructor
      · intro h
        refine Or.inr (Or.inr ⟨?_, ?_⟩) <;> omega
      · rintro (⟨h4, ha, hb⟩ | ⟨h5, ha, hb⟩ | ⟨h6, ha⟩) <;> omega
  · intro h4 hlate
    simp only [allowed_window, if_pos h4]
    simp only [Bool.and_eq_false_iff, decide_eq_false_iff_not]
    omega

/-- Witness for C10 on Wednesday 18:30:00. -/
theorem claim10_allowed_window_witness :
    (allowed_window 2 66600000000 = true ↔
        ((2 ≤ 4 ∧ 64800000000 ≤ 66600000000 ∧ 66600000000 ≤ 86399000000) ∨
         (2 = 5 ∧ 14400000000 ≤ 66600000000 ∧ 66600000000 ≤ 86399000000) ∨
         (2 = 6 ∧ 66600000000 ≤ 75600000000))) ∧
      (2 ≤ 4 → 86399000000 < 66600000000 → allowed_window 2 66600000000 = false) :=
  claim10_allowed_window 2 66600000000 (by decide) (by decide)

/-- All tables a fallback-best candidate can hold are non-excluded. -/
def goodBest (best : Option (HTable × List String)) : Prop :=
  ∀ t hdr, best = some (t, hdr) → excludedTable t = false

theorem scanHeadersets_inl_eq (t : HTable) :
    ∀ (hdrs : List (List String)) (best : Option (HTable × List String))
      (r : HTable × List String),
      scanHeadersets t best hdrs = Sum.inl r → r.1 = t := by
  intro hdrs
  induction hdrs with
  | nil =>
      intro best r h
      simp [scanHeadersets] at h
  | cons hdr rest ih =>
      intro best r h
      rw [scanHeadersets] at h
      by_cases hs : strongHeader hdr
      · rw [if_pos hs] at h
        cases h
        rfl
      · rw [if_neg hs] at h
        exact ih _ r h

theorem scanHeadersets_inr_good (t : HTable) (hex : excludedTable t = false) :
    ∀ (hdrs : List (List String)) (best b : Option (HTable × List String)),
      goodBest best → scanHeadersets t best hdrs = Sum.inr b → goodBest b := by
  intro hdrs
  induction hdrs with
  | nil =>
      intro best b hg h
      rw [scanHeadersets] at h
      cases h
      exact hg
  | cons hdr rest ih =>
      intro best b hg h
      rw [scanHeadersets] at h
      by_cases hs : strongHeader hdr
      · rw [if_pos hs] at h
        cases h
      · rw [if_neg hs] at h
        refine ih _ b ?_ h
        by_cases hw : (weakHeaderOk hdr && best.isNone) = true
        · rw [if_pos hw]
          intro t2 h2 he
          cases he
          exact hex
        · rw [if_neg hw]
          exact hg

theorem findLoop_good :
    ∀ (doc : Document) (best : Option (HTable × List String)),
      goodBest best → goodBest (findLoop doc best) := by
  intro doc
  induction doc with
  | nil =>
      intro best hg
      exact hg
  | cons t rest ih =>
      intro best hg
      rw [findLoop]
      by_cases hex : excludedTable t
      · rw [if_pos hex]
        exact ih best hg
      · rw [if_neg hex]
        have hexf : excludedTable t = false := by
          cases hh : excludedTable t
          · rfl
          · exact absurd hh hex
        cases hscan : scanHeadersets t best (tableHeaderCandidates t) with
        | inl r =>
            intro t2 h2 he
            cases he
            have ht : (t2, h2).1 = t :=
              scanHeadersets_inl_eq t (tableHeaderCandidates t) best (t2, h2) hscan
            simp only at ht
            rw [ht]
            exact hexf
        | inr b2 =>
            exact ih b2 (scanHeadersets_inr_good t hexf (tableHeaderCandidates t) best b2 hg hscan)

/-- C4: a table whose full text contains a "Completed Studies" or
"Report Out Time" marker is never the table the locator selects, whatever
header signals it carries: the exclusion test runs before any header
scoring, so any selected table satisfies `excludedTable t = false`. -/
theorem claim4_exclusion_overrides_scoring :
    ∀ (doc : Document) (t : HTable) (hdr : List String),
      findWorklistTable doc = some (t, hdr) → excludedTable t = false := by
  intro doc t hdr h
  exact findLoop_good doc none (by intro t2 h2 he; cases he) t hdr h

/-- A concrete document with a strong-header table for the C4 witness. -/
def witnessTable : HTable := ⟨[[⟨true, "Study Requested"⟩, ⟨true, "Modality"⟩]]⟩

/-- Witness for C4: the locator selects `witnessTable` from a concrete
document, so that table is not excluded. -/
theorem claim4_exclusion_overrides_scoring_witness :
    excludedTable witnessTable = false :=
  claim4_exclusion_overrides_scoring [witnessTable] witnessTable
    ["Study Requested", "Modality"] rfl

/-- The row-counting predicate of the row loop (monitor.py lines 395-405):
the row has no `<th>` cell and at least 5 `<td>` cells.  (The source's
separate empty-cells check is subsumed by the minimum cell count.) -/
def rowCounted (tr : List Cell) : Bool :=
  !tr.any Cell.isTh && decide (5 ≤ (tr.filter fun c => !c.isTh).length)

theorem stepRowBody_rowsSeen (oracle : String → String → Option Int) (nowT : Int)
    (dateI timeI studyI : Int) (texts : List String) (st : ExtractionState) :
    (stepRowBody oracle nowT dateI timeI studyI texts st).rowsSeen = st.rowsSeen := by
  simp only [stepRowBody]
  repeat' split
  all_goals rfl

theorem stepRow_rowsSeen (oracle : String → String → Option Int) (nowT : Int)
    (dateI timeI studyI : Int) (st : ExtractionState) (tr : List Cell) :
    (stepRow oracle nowT dateI timeI studyI st tr).rowsSeen =
      st.rowsSeen + (if rowCounted tr then 1 else 0) := by
  simp only [stepRow, rowCounted]
  by_cases h1 : tr.any Cell.isTh
  · simp [h1]
  · simp only [h1, Bool.false_eq_true, if_false, Bool.not_false, Bool.true_and]
    by_cases h2 : (tr.filter fun c => !c.isTh).isEmpty
    · have h5 : ¬(5 ≤ (tr.filter fun c => !c.isTh).length) := by
        rw [List.isEmpty_iff] at h2
        simp [h2]
      simp [h2, h5]
    · simp only [h2, Bool.false_eq_true, if_false]
      by_cases h3 : (tr.filter fun c => !c.isTh).length < 5
      · have h5 : ¬(5 ≤ (tr.filter fun c => !c.isTh).length) := by omega
        simp [h3, h5]
      · have h5 : 5 ≤ (tr.filter fun c => !c.isTh).length := by omega
        simp [h3, h5, stepRowBody_rowsSeen]

theorem foldl_rowsSeen (oracle : String → String → Option Int) (nowT : Int)
    (dateI timeI studyI : Int) :
    ∀ (rows : List (List Cell)) (st : ExtractionState),
      (rows.foldl (stepRow oracle nowT dateI timeI studyI) st).rowsSeen =
        st.rowsSeen + rows.countP rowCounted := by
  intro rows
  induction rows with
  | nil =>
      intro st
      simp
  | cons tr rest ih =>
      intro st
      rw [List.foldl_cons, List.countP_cons, ih, stepRow_rowsSeen]
      by_cases h : rowCounted tr
      · omega
      · omega

/-- C8: `rowsSeen` counts exactly the rows with no header (`<th>`) cell and
at least 5 data (`<td>`) cells — the minimum of the inferred-column mode,
the only mode this source implements; rows failing that bar are not counted,
while rows later discarded (no CT/MR mention, unparsable timestamp, age
below 60 minutes) are still counted, since the discard logic runs after the
`rowsSeen` increment. -/
theorem claim8_rows_seen :
    ∀ (oracle : String → String → Option Int) (nowT : Int) (doc : Document),
      (parseWorklistCounts oracle nowT doc).2.rowsSeen =
        (match findWorklistTable doc with
         | none => 0
         | some (t, _) => t.rows.countP rowCounted) := by
  intro oracle nowT doc
  cases h : findWorklistTable doc with
  | none =>
      unfold parseWorklistCounts
      rw [h]
  | some p =>
      obtain ⟨t, hdr⟩ := p
      unfold parseWorklistCounts
      rw [h]
      simp [foldl_rowsSeen, initState]

/-- Invariant of the crawl queue: fetchable URLs are pairwise distinct, all
already marked seen, all under the base URL, and all at depth 1..3. -/
def QInv (q : List (String × Nat)) (seen : List String) : Prop :=
  (q.map Prod.fst).Nodup ∧
  ∀ p ∈ q, p.1 ∈ seen ∧ strStartsWith p.1 BASE_URL = true ∧ 1 ≤ p.2 ∧ p.2 ≤ 3

theorem contains_false_not_mem {l : List String} {u : String}
    (h : l.contains u = false) : u ∉ l := by
  simp only [List.contains_eq_any_beq] at h
  intro hm
  simp [List.any_eq_true] at h
  exact h u hm rfl

theorem enqueue_spec :
    ∀ (us : List String) (d : Nat) (seen : List String) (q : List (String × Nat)),
      QInv q seen → 1 ≤ d → d ≤ 3 →
      QInv (enqueue d us seen q).2 (enqueue d us seen q).1 ∧
      (∀ x ∈ seen, x ∈ (enqueue d us seen q).1) ∧
      (∀ p ∈ (enqueue d us seen q).2, p ∈ q ∨ p.1 ∉ seen) := by
  intro us
  induction us with
  | nil =>
      intro d seen q hq h1 h3
      exact ⟨hq, fun x hx => hx, fun p hp => Or.inl hp⟩
  | cons u rest ih =>
      intro d seen q hq h1 h3
      rw [enqueue]
      by_cases hc : (!(seen.contains u) && strStartsWith u BASE_URL) = true
      · rw [if_pos hc]
        rw [Bool.and_eq_true, Bool.not_eq_true'] at hc
        have hu : u ∉ seen := contains_false_not_mem hc.1
        have hpre : strStartsWith u BASE_URL = true := hc.2
        have hq2 : QInv (q ++ [(u, d)]) (u :: seen) := by
          constructor
          · rw [List.map_append]
            rw [List.nodup_append]
            refine ⟨hq.1, List.nodup_singleton u, ?_⟩
            intro x hx
            simp only [List.map_cons, List.map_nil, List.mem_singleton]
            intro he
            subst he
            obtain ⟨p, hp, hpe⟩ := List.mem_map.1 hx
            exact hu (hpe ▸ (hq.2 p hp).1)
          · intro p hp
            rcases List.mem_append.1 hp with hp1 | hp2
            · obtain ⟨hs, hb, hlo, hhi⟩ := hq.2 p hp1
              exact ⟨List.mem_cons_of_mem u hs, hb, hlo, hhi⟩
            · rw [List.mem_singleton] at hp2
              subst hp2
              exact ⟨List.mem_cons_self u seen, hpre, h1, h3⟩
        obtain ⟨ha, hb, hcc⟩ := ih d (u :: seen) (q ++ [(u, d)]) hq2 h1 h3
        refine ⟨ha, ?_, ?_⟩
        · intro x hx
          exact hb x (List.mem_cons_of_mem u hx)
        · intro p hp
          rcases hcc p hp with hp1 | hp2
          · rcases List.mem_append.1 hp1 with hq1 | hq2'
            · exact Or.inl hq1
            · rw [List.mem_singleton] at hq2'
              subst hq2'
              exact Or.inr hu
          · exact Or.inr fun hmem => hp2 (List.mem_cons_of_mem u hmem)
      · rw [if_neg hc]
        exact ih d seen q hq h1 h3

theorem seedQueue_spec :
    ∀ (us : List String) (seen : List String) (q : List (String × Nat)),
      QInv q seen → us.Nodup → (∀ u ∈ us, ∀ p ∈ q, p.1 ≠ u) →
      QInv (seedQueue us seen q).2 (seedQueue us seen q).1 := by
  intro us
  induction us with
  | nil =>
      intro seen q hq _ _
      exact hq
  | cons u rest ih =>
      intro seen q hq hnd hfresh
      rw [seedQueue]
      rw [List.nodup_cons] at hnd
      by_cases hc : strStartsWith u BASE_URL = true
      · rw [if_pos hc]
        have hq2 : QInv (q ++ [(u, 1)]) (u :: seen) := by
          constructor
          · rw [List.map_append, List.nodup_append]
            refine ⟨hq.1, List.nodup_singleton u, ?_⟩
            intro x hx
            simp only [List.map_cons, List.map_nil, List.mem_singleton]
            intro he
            obtain ⟨p, hp, hpe⟩ := List.mem_map.1 hx
            exact hfresh u (List.mem_cons_self u rest) p hp (hpe.trans he)
          · intro p hp
            rcases List.mem_append.1 hp with hp1 | hp2
            · obtain ⟨hs, hb, hlo, hhi⟩ := hq.2 p hp1
              exact ⟨List.mem_cons_of_mem u hs, hb, hlo, hhi⟩
            · rw [List.mem_singleton] at hp2
              subst hp2
              exact ⟨List.mem_cons_self u seen, hc, le_refl 1, by omega⟩
        refine ih (u :: seen) (q ++ [(u, 1)]) hq2 hnd.2 ?_
        intro v hv p hp
        rcases List.mem_append.1 hp with hp1 | hp2
        · exact hfresh v (List.mem_cons_of_mem u hv) p hp1
        · rw [List.mem_singleton] at hp2
          subst hp2
          intro he
          simp only at he
          refine hnd.1 ?_
          rw [he]
          exact hv
      · rw [if_neg hc]
        refine ih seen q hq hnd.2 ?_
        intro v hv p hp
        exact hfresh v (List.mem_cons_of_mem u hv) p hp

theorem crawl_cons_assemble (web : String → String)
    (url : String) (depth : Nat) (rest : List (String × Nat)) (seen s2 : List String)
    (q2 : List (String × Nat)) (res : Option String) (trace : List (String × Nat)) (fuel : Nat)
    (hlen : trace.length ≤ fuel)
    (hnd2 : (trace.map Prod.fst).Nodup)
    (hprops : ∀ p ∈ trace, strStartsWith p.1 BASE_URL = true ∧ 1 ≤ p.2 ∧ p.2 ≤ 3)
    (hdisj : ∀ p ∈ trace, p.1 ∈ q2.map Prod.fst ∨ p.1 ∉ s2)
    (hfirst : ∀ h, res = some h → ∃ pre u d, trace = pre ++ [(u, d)] ∧
        (∀ p ∈ pre, looks_like_worklist (web p.1) = false) ∧ h = web u ∧
        looks_like_worklist h = true)
    (hnone : res = none → ∀ p ∈ trace, looks_like_worklist (web p.1) = false)
    (hsub : ∀ p ∈ q2, p ∈ rest ∨ p.1 ∉ seen)
    (hmono : ∀ x ∈ seen, x ∈ s2)
    (hnotin : url ∉ rest.map Prod.fst)
    (hseen : url ∈ seen)
    (hbase : strStartsWith url BASE_URL = true)
    (hlo : 1 ≤ depth) (hhi : depth ≤ 3)
    (hlwf : looks_like_worklist (web url) = false) :
    ((url, depth) :: trace).length ≤ fuel + 1 ∧
    (((url, depth) :: trace).map Prod.fst).Nodup ∧
    (∀ p ∈ (url, depth) :: trace, strStartsWith p.1 BASE_URL = true ∧ 1 ≤ p.2 ∧ p.2 ≤ 3) ∧
    (∀ p ∈ (url, depth) :: trace,
        p.1 ∈ ((url, depth) :: rest).map Prod.fst ∨ p.1 ∉ seen) ∧
    (∀ h, res = some h → ∃ pre u d, (url, depth) :: trace = pre ++ [(u, d)] ∧
        (∀ p ∈ pre, looks_like_worklist (web p.1) = false) ∧ h = web u ∧
        looks_like_worklist h = true) ∧
    (res = none → ∀ p ∈ (url, depth) :: trace, looks_like_worklist (web p.1) = false) := by
  refine ⟨?_, ?_, ?_, ?_, ?_, ?_⟩
  · simp only [List.length_cons]
    omega
  · rw [List.map_cons, List.nodup_cons]
    refine ⟨?_, hnd2⟩
    intro hmemm
    obtain ⟨p, hp, hpe⟩ := List.mem_map.1 hmemm
    have hpu : p.1 = url := hpe
    rcases hdisj p hp with hin | hns
    · obtain ⟨pp, hpp, hppe⟩ := List.mem_map.1 hin
      rcases hsub pp hpp with hr | hnseen
      · refine hnotin ?_
        rw [← hpu, ← hppe]
        exact List.mem_map_of_mem Prod.fst hr
      · refine hnseen ?_
        rw [hppe, hpu]
        exact hseen
    · refine hns ?_
      rw [hpu]
      exact hmono url hseen
  · intro p hp
    rcases List.mem_cons.1 hp with he | ht
    · subst he
      exact ⟨hbase, hlo, hhi⟩
    · exact hprops p ht
  · intro p hp
    rcases List.mem_cons.1 hp with he | ht
    · subst he
      exact Or.inl (by simp)
    · rcases hdisj p ht with hin | hns
      · obtain ⟨pp, hpp, hppe⟩ := List.mem_map.1 hin
        rcases hsub pp hpp with hr | hnseen
        · refine Or.inl ?_
          rw [List.map_cons]
          refine List.mem_cons_of_mem _ ?_
          rw [← hppe]
          exact List.mem_map_of_mem Prod.fst hr
        · refine Or.inr ?_
          rw [← hppe]
          exact hnseen
      · exact Or.inr fun hs => hns (hmono p.1 hs)
  · intro h hh
    obtain ⟨pre, u, d, htr, hpre, hu, hlk⟩ := hfirst h hh
    refine ⟨(url, depth) :: pre, u, d, ?_, ?_, hu, hlk⟩
    · rw [htr]
      rfl
    · intro p hp
      rcases List.mem_cons.1 hp with he | ht
      · subst he
        exact hlwf
      · exact hpre p ht
  · intro hn p hp
    rcases List.mem_cons.1 hp with he | ht
    · subst he
      exact hlwf
    · exact hnone hn p ht

theorem crawlLoop_spec (web : String → String) (links : String → String → List String) :
    ∀ (fuel : Nat) (q : List (String × Nat)) (seen : List String), QInv q seen →
      (crawlLoop web links fuel q seen).2.length ≤ fuel ∧
      ((crawlLoop web links fuel q seen).2.map Prod.fst).Nodup ∧
      (∀ p ∈ (crawlLoop web links fuel q seen).2,
          strStartsWith p.1 BASE_URL = true ∧ 1 ≤ p.2 ∧ p.2 ≤ 3) ∧
      (∀ p ∈ (crawlLoop web links fuel q seen).2, p.1 ∈ q.map Prod.fst ∨ p.1 ∉ seen) ∧
      (∀ h, (crawlLoop web links fuel q seen).1 = some h →
          ∃ pre u d, (crawlLoop web links fuel q seen).2 = pre ++ [(u, d)] ∧
            (∀ p ∈ pre, looks_like_worklist (web p.1) = false) ∧ h = web u ∧
            looks_like_worklist h = true) ∧
      ((crawlLoop web links fuel q seen).1 = none →
          ∀ p ∈ (crawlLoop web links fuel q seen).2, looks_like_worklist (web p.1) = false) := by
  intro fuel
  induction fuel with
  | zero =>
      intro q seen _
      simp [crawlLoop]
  | succ fuel ih =>
      intro q seen hq
      rcases q with _ | ⟨⟨url, depth⟩, rest⟩
      · simp [crawlLoop]
      · obtain ⟨hnd, hmem⟩ := hq
        obtain ⟨hseen, hbase, hlo, hhi⟩ := hmem (url, depth) (List.mem_cons_self _ _)
        rw [List.map_cons, List.nodup_cons] at hnd
        have hrest : QInv rest seen :=
          ⟨hnd.2, fun p hp => hmem p (List.mem_cons_of_mem _ hp)⟩
        by_cases hlw : looks_like_worklist (web url) = true
        · have hred : crawlLoop web links (fuel + 1) ((url, depth) :: rest) seen
              = (some (web url), [(url, depth)]) := by
            rw [crawlLoop]
            simp [hlw]
          rw [hred]
          refine ⟨by simp, by simp, ?_, ?_, ?_, ?_⟩
          · intro p hp
            rw [List.mem_singleton] at hp
            subst hp
            exact ⟨hbase, hlo, hhi⟩
          · intro p hp
            rw [List.mem_singleton] at hp
            subst hp
            exact Or.inl (by simp)
          · intro h hh
            simp only at hh
            cases hh
            exact ⟨[], url, depth, rfl, by simp, rfl, hlw⟩
          · intro hn
            simp at hn
        · have hlwf : looks_like_worklist (web url) = false := by
            cases h2 : looks_like_worklist (web url)
            · rfl
            · exact absurd h2 hlw
          by_cases hd : depth < 3
          · have hred : crawlLoop web links (fuel + 1) ((url, depth) :: rest) seen
                = ((crawlLoop web links fuel
                      (enqueue (depth + 1) (prioritize (links url (web url))) seen rest).2
                      (enqueue (depth + 1) (prioritize (links url (web url))) seen rest).1).1,
                  (url, depth) ::
                    (crawlLoop web links fuel
                      (enqueue (depth + 1) (prioritize (links url (web url))) seen rest).2
                      (enqueue (depth + 1) (prioritize (links url (web url))) seen rest).1).2) := by
              rw [crawlLoop]
              simp [hlwf, hd]
            obtain ⟨hEinv, hEmono, hEsub⟩ :=
              enqueue_spec (prioritize (links url (web url))) (depth + 1) seen rest hrest
                (by omega) (by omega)
            obtain ⟨ih1, ih2, ih3, ih4, ih5, ih6⟩ :=
              ih (enqueue (depth + 1) (prioritize (links url (web url))) seen rest).2
                (enqueue (depth + 1) (prioritize (links url (web url))) seen rest).1 hEinv
            rw [hred]
            exact crawl_cons_assemble web url depth rest seen _ _ _ _ fuel
              ih1 ih2 ih3 ih4 ih5 ih6 hEsub hEmono hnd.1 hseen hbase hlo hhi hlwf
          · have hred : crawlLoop web links (fuel + 1) ((url, depth) :: rest) seen
                = ((crawlLoop web links fuel rest seen).1,
                  (url, depth) :: (crawlLoop web links fuel rest seen).2) := by
              rw [crawlLoop]
              simp [hlwf, hd]
            obtain ⟨ih1, ih2, ih3, ih4, ih5, ih6⟩ := ih rest seen hrest
            rw [hred]
            exact crawl_cons_assemble web url depth rest seen seen rest _ _ fuel
              ih1 ih2 ih3 ih4 ih5 ih6 (fun p hp => Or.inl hp) (fun x hx => hx)
              hnd.1 hseen hbase hlo hhi hlwf

theorem prioritize_perm (l : List String) : (prioritize l).Perm l := by
  unfold prioritize
  have h1 := List.perm_insertionSort prLe (l.map fun u => (urlScore u, u))
  have h2 := h1.map Prod.snd
  rw [List.map_map] at h2
  have h3 : List.map (Prod.snd ∘ fun u : String => (urlScore u, u)) l = l :=
    List.map_id'' (congrFun rfl) l
  rw [h3] at h2
  exact h2

/-- C9: the authentication fallback crawl is bounded and first-match.  For
any web (`web` maps a URL to its page, `links` to the same-origin links
`collect_links_and_frames` gathers from it) and any duplicate-free link list
of the post-login page, the trace of fetched pages satisfies: at most 60
pages are fetched; no page is fetched twice (every enqueued URL was unseen
when enqueued); every fetched URL passes the `u.startswith(BASE_URL)` check
(hence is same-origin with the base) and sits at depth 1..3, links being
followed only from pages at depth < 3; and the returned page, when any, is
the page of the first fetched URL that qualifies as worklist-like, all
earlier fetches having failed the test — while a `none` result means no
fetched page qualified. -/
theorem claim9_crawl_bounded_first_match :
    ∀ (web : String → String) (links : String → String → List String)
      (startLinks : List String), startLinks.Nodup →
      (crawl web links startLinks).2.length ≤ 60 ∧
      ((crawl web links startLinks).2.map Prod.fst).Nodup ∧
      (∀ p ∈ (crawl web links startLinks).2,
          strStartsWith p.1 BASE_URL = true ∧ 1 ≤ p.2 ∧ p.2 ≤ 3) ∧
      (∀ h, (crawl web links startLinks).1 = some h →
          ∃ pre u d, (crawl web links startLinks).2 = pre ++ [(u, d)] ∧
            (∀ p ∈ pre, looks_like_worklist (web p.1) = false) ∧ h = web u ∧
            looks_like_worklist h = true) ∧
      ((crawl web links startLinks).1 = none →
          ∀ p ∈ (crawl web links startLinks).2, looks_like_worklist (web p.1) = false) := by
  intro web links startLinks hnd
  have hpn : (prioritize startLinks).Nodup :=
    ((prioritize_perm startLinks).nodup_iff).2 hnd
  have hinit : QInv ([] : List (String × Nat)) ([] : List String) :=
    ⟨List.nodup_nil, fun p hp => absurd hp (List.not_mem_nil p)⟩
  have hseed := seedQueue_spec (prioritize startLinks) [] [] hinit hpn
    (by intro u hu p hp; cases hp)
  obtain ⟨c1, c2, c3, _, c5, c6⟩ :=
    crawlLoop_spec web links 60 (seedQueue (prioritize startLinks) [] []).2
      (seedQueue (prioritize startLinks) [] []).1 hseed
  exact ⟨c1, c2, c3, c5, c6⟩

/-- Concrete web for the C9 witness: every page is empty. -/
def crawlWitnessWeb : String → String := fun _ => ""

/-- Concrete link collector for the C9 witness: no page has links. -/
def crawlWitnessLinks : String → String → List String := fun _ _ => []

/-- Concrete post-login link list for the C9 witness. -/
def crawlWitnessStart : List String :=
  ["https://www.avrteleris.com/AVR/Forms/Worklist/Worklist.aspx"]

/-- Witness for C9 on a concrete one-link web. -/
theorem claim9_crawl_bounded_first_match_witness :
    (crawl crawlWitnessWeb crawlWitnessLinks crawlWitnessStart).2.length ≤ 60 ∧
    ((crawl crawlWitnessWeb crawlWitnessLinks crawlWitnessStart).2.map Prod.fst).Nodup ∧
    (∀ p ∈ (crawl crawlWitnessWeb crawlWitnessLinks crawlWitnessStart).2,
        strStartsWith p.1 BASE_URL = true ∧ 1 ≤ p.2 ∧ p.2 ≤ 3) ∧
    (∀ h, (crawl crawlWitnessWeb crawlWitnessLinks crawlWitnessStart).1 = some h →
        ∃ pre u d,
          (crawl crawlWitnessWeb crawlWitnessLinks crawlWitnessStart).2 = pre ++ [(u, d)] ∧
          (∀ p ∈ pre, looks_like_worklist (crawlWitnessWeb p.1) = false) ∧
          h = crawlWitnessWeb u ∧ looks_like_worklist h = true) ∧
    ((crawl crawlWitnessWeb crawlWitnessLinks crawlWitnessStart).1 = none →
        ∀ p ∈ (crawl crawlWitnessWeb crawlWitnessLinks crawlWitnessStart).2,
          looks_like_worklist (crawlWitnessWeb p.1) = false) :=
  claim9_crawl_bounded_first_match crawlWitnessWeb crawlWitnessLinks crawlWitnessStart
    (by simp [crawlWitnessStart])

end Monitor
